import Mathlib

/-!
Verification of `preseed-framework/generate_preseed.py`.

The script loads a JSON object from `config.json`, reads `template.cfg`,
and for each `(key, value)` pair (in mapping iteration order) performs
`content = content.replace("{{" + key + "}}", str(value))`, finally writing
the result to `preseed.cfg` and printing a confirmation line.  Missing input
files abort with `SystemExit` before anything is read or written.

Strings are embedded as `List Char`.  Python's `str.replace` (left-to-right,
non-overlapping, single pass) is embedded as `replace` below; the script only
ever calls it with the non-empty pattern `"{{" + key + "}}"`, and `replace`
agrees with Python on every non-empty pattern (Python's special behaviour for
an empty pattern is not exercised by the program and is not modelled).
-/

namespace Preseed

/-- Strings from the Python program, embedded as lists of characters. -/
abbrev Str := List Char

/-- Scalar JSON values as Python's `json.load` produces them for the flat
configuration objects described by the data model: strings, integers,
booleans (`True` / `False`) and `None`. -/
inductive JValue where
  | str (s : Str)
  | int (n : Int)
  | bool (b : Bool)
  | null
deriving DecidableEq

/-- Python's `str()` conversion on the scalar values above: a string is
itself, an integer prints in decimal (with a leading minus sign when
negative), and `True` / `False` / `None` use Python's spellings, not the
JSON spellings `true` / `false` / `null`. -/
def pyStr : JValue → Str
  | .str s => s
  | .int n => (toString n).data
  | .bool true => "True".data
  | .bool false => "False".data
  | .null => "None".data

/-- Fuelled worker for `replace`.  Scans left to right; whenever the pattern
is a prefix of the remaining input the replacement is emitted and the scan
resumes after the matched occurrence (the replacement text is never
rescanned), otherwise one character is copied.  The fuel only makes the
recursion structural; `replace` always supplies enough fuel for the branch
returning `s` at fuel `0` to be unreachable. -/
def replaceGo (fuel : Nat) (s pat rep : Str) : Str :=
  match fuel, s with
  | 0, s => s
  | _ + 1, [] => []
  | fuel + 1, c :: rest =>
    if pat.isPrefixOf (c :: rest) && !pat.isEmpty then
      rep ++ replaceGo fuel ((c :: rest).drop pat.length) pat rep
    else
      c :: replaceGo fuel rest pat rep

/-- Python's `content.replace(pat, rep)` for a non-empty pattern `pat`:
every non-overlapping occurrence of `pat`, found left to right, is replaced
by `rep` in a single pass. -/
def replace (s pat rep : Str) : Str := replaceGo s.length s pat rep

/-- The f-string `f"{{{{{key}}}}}"` from line 25 of the script: the literal
text `{{key}}`. -/
def placeholder (key : Str) : Str := '{' :: '{' :: (key ++ ['}', '}'])

/-- Lines 24-26 of the script: iterate over the configuration pairs in
mapping order, replacing each key's placeholder by the stringified value. -/
def render (config : List (Str × JValue)) (template : Str) : Str :=
  config.foldl (fun content kv => replace content (placeholder kv.1) (pyStr kv.2)) template

/-- Path of the configuration file (`Path(__file__).with_name("config.json")`);
paths are modelled by their file names, which are pairwise distinct. -/
def CONFIG_PATH : Str := "config.json".data

/-- Path of the template file (`Path(__file__).with_name("template.cfg")`). -/
def TEMPLATE_PATH : Str := "template.cfg".data

/-- Path of the output file (`Path(__file__).with_name("preseed.cfg")`). -/
def OUTPUT_PATH : Str := "preseed.cfg".data

/-- Message of the `SystemExit` raised when the configuration file is
missing: `f"Config file {CONFIG_PATH} not found"`. -/
def configMissingMsg : Str := "Config file ".data ++ CONFIG_PATH ++ " not found".data

/-- Message of the `SystemExit` raised when the template file is missing:
`f"Template file {TEMPLATE_PATH} not found"`. -/
def templateMissingMsg : Str := "Template file ".data ++ TEMPLATE_PATH ++ " not found".data

/-- The confirmation line `f"Generated {OUTPUT_PATH}"` printed on success. -/
def generatedMsg : Str := "Generated ".data ++ OUTPUT_PATH

/-- The file system visible to the script: a map from paths to file
contents, `none` meaning the file does not exist. -/
structure FS where
  files : Str → Option Str

/-- Observable result of one run of `main`: `fatal` is `SystemExit` with a
message (process exit status 1), `exn` is an unhandled exception such as a
JSON decode error (also a non-zero exit status), `ok` is a normal return
after printing the given line (exit status 0). -/
inductive Result where
  | fatal (msg : Str)
  | exn
  | ok (printed : Str)
deriving DecidableEq

/-- Process exit status determined by the run's result. -/
def exitCode : Result → Nat
  | .fatal _ => 1
  | .exn => 1
  | .ok _ => 0

/-- True on the JSON whitespace characters skipped by the parser. -/
def isWs (c : Char) : Bool := c = ' ' || c = '\n' || c = '\t' || c = '\r'

/-- Drop leading JSON whitespace. -/
def skipWs : Str → Str
  | [] => []
  | c :: rest => if isWs c then skipWs rest else c :: rest

/-- Parse the body of a JSON string up to the closing quote, returning the
contents and the rest of the input.  Escape sequences are outside the
modelled fragment and make the parse fail. -/
def parseStringBody : Str → Option (Str × Str)
  | [] => none
  | c :: rest =>
    if c = '"' then some ([], rest)
    else if c = '\\' then none
    else
      match parseStringBody rest with
      | some (s, r) => some (c :: s, r)
      | none => none

/-- Accumulate decimal digits into a natural number. -/
def digitsLoop (acc : Nat) : Str → Nat × Str
  | [] => (acc, [])
  | c :: rest =>
    if c.isDigit then digitsLoop (acc * 10 + (c.toNat - '0'.toNat)) rest
    else (acc, c :: rest)

/-- Parse a non-empty run of decimal digits; fails when the number continues
with a fraction or exponent (floats are outside the modelled fragment). -/
def parseNatNum : Str → Option (Nat × Str)
  | [] => none
  | c :: rest =>
    if c.isDigit then
      match digitsLoop (c.toNat - '0'.toNat) rest with
      | (n, r) =>
        match r with
        | d :: _ => if d = '.' || d = 'e' || d = 'E' then none else some (n, r)
        | [] => some (n, [])
    else none

/-- Parse an optionally negated integer literal. -/
def parseIntNum : Str → Option (Int × Str)
  | '-' :: rest =>
    match parseNatNum rest with
    | some (n, r) => some (-(n : Int), r)
    | none => none
  | s =>
    match parseNatNum s with
    | some (n, r) => some ((n : Int), r)
    | none => none

/-- Consume an expected literal word. -/
def expectLit (lit s : Str) : Option Str :=
  if lit.isPrefixOf s then some (s.drop lit.length) else none

/-- Parse one scalar JSON value: string, `true`, `false`, `null`, or an
integer. -/
def parseValue (s : Str) : Option (JValue × Str) :=
  match s with
  | [] => none
  | c :: rest =>
    if c = '"' then
      match parseStringBody rest with
      | some (str, r) => some (.str str, r)
      | none => none
    else if c = 't' then
      match expectLit "rue".data rest with
      | some r => some (.bool true, r)
      | none => none
    else if c = 'f' then
      match expectLit "alse".data rest with
      | some r => some (.bool false, r)
      | none => none
    else if c = 'n' then
      match expectLit "ull".data rest with
      | some r => some (.null, r)
      | none => none
    else
      match parseIntNum (c :: rest) with
      | some (n, r) => some (.int n, r)
      | none => none

/-- Parse the members of a non-empty JSON object, starting at the first key
and consuming the closing brace.  The fuel bounds the number of members and
only makes the recursion structural; `parseJson` supplies more fuel than any
input can use, since each member consumes at least one input character. -/
def parseMembers : Nat → Str → Option (List (Str × JValue) × Str)
  | 0, _ => none
  | fuel + 1, s =>
    match skipWs s with
    | '"' :: rest =>
      match parseStringBody rest with
      | some (key, r1) =>
        match skipWs r1 with
        | ':' :: r2 =>
          match parseValue (skipWs r2) with
          | some (v, r3) =>
            match skipWs r3 with
            | ',' :: r4 =>
              match parseMembers fuel r4 with
              | some (ms, r5) => some ((key, v) :: ms, r5)
              | none => none
            | '}' :: r4 => some ([(key, v)], r4)
            | _ => none
          | none => none
        | _ => none
      | none => none
    | _ => none

/-- Modelled from the spec: Python's `json.load` on the configuration file,
restricted to the flat objects of scalar values that the data model admits
(string keys without escape sequences; string, integer, boolean and null
values).  `none` stands for any unhandled fault on line 19 of the script —
a JSON decode error, or data whose `.items()` call would fail — every such
fault ends the process with a non-zero status.  Member order is preserved,
matching the iteration order of the resulting Python dict. -/
def parseJson (s : Str) : Option (List (Str × JValue)) :=
  match skipWs s with
  | '{' :: rest =>
    match skipWs rest with
    | '}' :: r => if (skipWs r).isEmpty then some [] else none
    | r2 =>
      match parseMembers (r2.length + 1) r2 with
      | some (cfg, r3) => if (skipWs r3).isEmpty then some cfg else none
      | none => none
  | _ => none

/-- One run of `main` (lines 12-29 of the script) against a file system:
check that the configuration and template files exist (in that order,
aborting with the corresponding message when one is missing), parse the
configuration, render the template, then write the output file and print the
confirmation line.  Returns the observable result together with the file
system after the run. -/
def runMain (fs : FS) : Result × FS :=
  match fs.files CONFIG_PATH with
  | none => (.fatal configMissingMsg, fs)
  | some cfgText =>
    match fs.files TEMPLATE_PATH with
    | none => (.fatal templateMissingMsg, fs)
    | some tmplText =>
      match parseJson cfgText with
      | none => (.exn, fs)
      | some config =>
        (.ok generatedMsg,
         ⟨fun p => if p = OUTPUT_PATH then some (render config tmplText) else fs.files p⟩)

/-- A string is brace-free when it contains neither `{` nor `}`. -/
def braceFree (s : Str) : Prop := '{' ∉ s ∧ '}' ∉ s

theorem isPrefixOf_eq_true_iff {l₁ l₂ : Str} : l₁.isPrefixOf l₂ = true ↔ l₁ <+: l₂ :=
  List.isPrefixOf_iff_prefix

theorem replaceGo_nil (f : Nat) (pat rep : Str) : replaceGo f [] pat rep = [] := by
  cases f <;> rfl

theorem replaceGo_congr (f₁ : Nat) : ∀ (f₂ : Nat) (s pat rep : Str),
    s.length ≤ f₁ → s.length ≤ f₂ → replaceGo f₁ s pat rep = replaceGo f₂ s pat rep := by
  induction f₁ with
  | zero =>
    intro f₂ s pat rep h₁ _
    have hs : s = [] := List.eq_nil_of_length_eq_zero (Nat.le_zero.mp h₁)
    subst hs
    rw [replaceGo_nil, replaceGo_nil]
  | succ f ih =>
    intro f₂ s pat rep h₁ h₂
    cases s with
    | nil => rw [replaceGo_nil, replaceGo_nil]
    | cons c rest =>
      cases f₂ with
      | zero => simp at h₂
      | succ g =>
        show (if pat.isPrefixOf (c :: rest) && !pat.isEmpty then
                rep ++ replaceGo f ((c :: rest).drop pat.length) pat rep
              else c :: replaceGo f rest pat rep)
           = (if pat.isPrefixOf (c :: rest) && !pat.isEmpty then
                rep ++ replaceGo g ((c :: rest).drop pat.length) pat rep
              else c :: replaceGo g rest pat rep)
        by_cases hc : (pat.isPrefixOf (c :: rest) && !pat.isEmpty) = true
        · rw [if_pos hc, if_pos hc]
          have hpat : 1 ≤ pat.length := by
            have h' := hc
            simp only [Bool.and_eq_true] at h'
            cases pat with
            | nil => simp at h'
            | cons _ _ => simp
          have hd : ((c :: rest).drop pat.length).length ≤ f := by
            simp only [List.length_drop, List.length_cons]
            simp only [List.length_cons] at h₁
            omega
          have hd' : ((c :: rest).drop pat.length).length ≤ g := by
            simp only [List.length_drop, List.length_cons]
            simp only [List.length_cons] at h₂
            omega
          rw [ih g _ pat rep hd hd']
        · rw [if_neg hc, if_neg hc]
          have hr : rest.length ≤ f := by simp only [List.length_cons] at h₁; omega
          have hr' : rest.length ≤ g := by simp only [List.length_cons] at h₂; omega
          rw [ih g rest pat rep hr hr']

theorem replace_nil (pat rep : Str) : replace [] pat rep = [] := rfl

theorem replace_cons_no (c : Char) (t pat rep : Str) (h : ¬ pat <+: (c :: t)) :
    replace (c :: t) pat rep = c :: replace t pat rep := by
  have hb : (pat.isPrefixOf (c :: t) && !pat.isEmpty) = false := by
    have hp : pat.isPrefixOf (c :: t) = false := by
      cases he : pat.isPrefixOf (c :: t)
      · rfl
      · exact absurd (isPrefixOf_eq_true_iff.mp he) h
    simp [hp]
  show (if pat.isPrefixOf (c :: t) && !pat.isEmpty then
          rep ++ replaceGo t.length ((c :: t).drop pat.length) pat rep
        else c :: replaceGo t.length t pat rep)
      = c :: replace t pat rep
  rw [if_neg (by simp [hb])]
  rfl

theorem replace_head (t pat rep : Str) (hpat : pat ≠ []) :
    replace (pat ++ t) pat rep = rep ++ replace t pat rep := by
  cases pat with
  | nil => exact absurd rfl hpat
  | cons p ps =>
    have hc : ((p :: ps).isPrefixOf (p :: (ps ++ t)) && !(p :: ps).isEmpty) = true := by
      have h' : (p :: ps).isPrefixOf ((p :: ps) ++ t) = true :=
        isPrefixOf_eq_true_iff.mpr (List.prefix_append _ _)
      simp only [List.cons_append] at h'
      simp [h']
    have hlen : ((p :: ps) ++ t).length = (ps.length + t.length) + 1 := by
      simp [List.length_append, List.length_cons]
    show replaceGo ((p :: ps) ++ t).length ((p :: ps) ++ t) (p :: ps) rep = _
    rw [hlen]
    show (if (p :: ps).isPrefixOf (p :: (ps ++ t)) && !(p :: ps).isEmpty then
            rep ++ replaceGo (ps.length + t.length) ((p :: (ps ++ t)).drop (p :: ps).length)
              (p :: ps) rep
          else p :: replaceGo (ps.length + t.length) (ps ++ t) (p :: ps) rep)
        = rep ++ replace t (p :: ps) rep
    rw [if_pos hc]
    have hdrop : (p :: (ps ++ t)).drop (p :: ps).length = t :=
      List.drop_left (p :: ps) t
    rw [hdrop]
    have : replaceGo (ps.length + t.length) t (p :: ps) rep
        = replaceGo t.length t (p :: ps) rep :=
      replaceGo_congr _ _ t _ rep (by omega) (by omega)
    rw [this]
    rfl

theorem prefix_isInfix {l₁ l₂ : Str} (h : l₁ <+: l₂) : l₁ <:+: l₂ := by
  obtain ⟨t, rfl⟩ := h
  exact ⟨[], t, rfl⟩

theorem infix_cons_of {c : Char} {l t : Str} (h : l <:+: t) : l <:+: (c :: t) := by
  obtain ⟨u, v, rfl⟩ := h
  exact ⟨c :: u, v, rfl⟩

theorem replace_empty_pat (s rep : Str) : replace s [] rep = s := by
  induction s with
  | nil => rfl
  | cons c rest ih =>
    show (if ([] : Str).isPrefixOf (c :: rest) && !([] : Str).isEmpty then
            rep ++ replaceGo rest.length ((c :: rest).drop ([] : Str).length) [] rep
          else c :: replaceGo rest.length rest [] rep) = c :: rest
    rw [if_neg (by simp)]
    exact congrArg (c :: ·) ih

theorem replace_of_not_infix (s pat rep : Str) (h : ¬ pat <:+: s) :
    replace s pat rep = s := by
  induction s with
  | nil => exact replace_nil pat rep
  | cons c rest ih =>
    have hp : ¬ pat <+: (c :: rest) := fun hp => h (prefix_isInfix hp)
    rw [replace_cons_no c rest pat rep hp, ih (fun hi => h (infix_cons_of hi))]

theorem replace_self_aux (n : Nat) : ∀ s pat : Str, s.length ≤ n → replace s pat pat = s := by
  induction n with
  | zero =>
    intro s pat h
    have hs : s = [] := List.eq_nil_of_length_eq_zero (Nat.le_zero.mp h)
    subst hs
    exact replace_nil pat pat
  | succ n ih =>
    intro s pat h
    rcases eq_or_ne pat [] with he | hne
    · subst he
      exact replace_empty_pat s []
    · by_cases hpre : pat <+: s
      · obtain ⟨t, rfl⟩ := hpre
        rw [replace_head t pat pat hne]
        have hlp : 1 ≤ pat.length := List.length_pos.mpr hne
        have hlen : t.length ≤ n := by
          rw [List.length_append] at h
          omega
        rw [ih t pat hlen]
      · cases s with
        | nil => exact replace_nil pat pat
        | cons c rest =>
          rw [replace_cons_no c rest pat pat hpre]
          have hlen : rest.length ≤ n := by
            simp only [List.length_cons] at h
            omega
          rw [ih rest pat hlen]

theorem replace_self (s pat : Str) : replace s pat pat = s :=
  replace_self_aux s.length s pat (le_refl _)

theorem braceFree_cons {a : Char} {s : Str} (h : braceFree (a :: s)) :
    a ≠ '{' ∧ a ≠ '}' ∧ braceFree s := by
  refine ⟨?_, ?_, ?_, ?_⟩
  · intro he; subst he; exact h.1 (List.mem_cons_self _ _)
  · intro he; subst he; exact h.2 (List.mem_cons_self _ _)
  · intro hm; exact h.1 (List.mem_cons_of_mem a hm)
  · intro hm; exact h.2 (List.mem_cons_of_mem a hm)

theorem replace_append_left_nolb (m R pat rep : Str) (p' : Str) (hpat : pat = '{' :: p')
    (hm : '{' ∉ m) : replace (m ++ R) pat rep = m ++ replace R pat rep := by
  induction m with
  | nil => rfl
  | cons a m' ih =>
    have ha : a ≠ '{' := by
      intro he
      subst he
      exact hm (List.mem_cons_self _ _)
    have hnp : ¬ pat <+: (a :: (m' ++ R)) := by
      intro hp
      rw [hpat] at hp
      exact ha (List.cons_prefix_cons.mp hp).1.symm
    rw [List.cons_append, replace_cons_no a (m' ++ R) pat rep hnp,
        ih (fun hmem => hm (List.mem_cons_of_mem a hmem)), List.cons_append]

theorem key_prefix_key_eq : ∀ (k k' R : Str), braceFree k → braceFree k' →
    (k ++ ['}', '}']) <+: (k' ++ ('}' :: '}' :: R)) → k = k' := by
  intro k
  induction k with
  | nil =>
    intro k' R _ hk' h
    cases k' with
    | nil => rfl
    | cons b k₂ =>
      exfalso
      have hb := (List.cons_prefix_cons.mp h).1
      exact (braceFree_cons hk').2.1 hb.symm
  | cons a k₂ ih =>
    intro k' R hk hk' h
    cases k' with
    | nil =>
      exfalso
      have ha := (List.cons_prefix_cons.mp h).1
      exact (braceFree_cons hk).2.1 ha
    | cons b k₃ =>
      have h' := List.cons_prefix_cons.mp h
      have hrec := ih k₃ R (braceFree_cons hk).2.2 (braceFree_cons hk').2.2 h'.2
      rw [h'.1, hrec]

theorem replace_ph_ne (k k' R rep : Str) (hk : braceFree k) (hk' : braceFree k')
    (hne : k' ≠ k) :
    replace (placeholder k' ++ R) (placeholder k) rep
      = placeholder k' ++ replace R (placeholder k) rep := by
  have hstep1 : ¬ placeholder k <+: ('{' :: ('{' :: ((k' ++ ['}', '}']) ++ R))) := by
    intro hp
    have h1 := List.cons_prefix_cons.mp hp
    have h2 := List.cons_prefix_cons.mp h1.2
    have heq : k = k' := by
      apply key_prefix_key_eq k k' R hk hk'
      have h3 := h2.2
      rwa [List.append_assoc] at h3
    exact hne heq.symm
  have hstep2 : ¬ placeholder k <+: ('{' :: ((k' ++ ['}', '}']) ++ R)) := by
    intro hp
    have h1 := List.cons_prefix_cons.mp hp
    cases k' with
    | nil =>
      have hb := (List.cons_prefix_cons.mp h1.2).1
      exact absurd hb (by decide)
    | cons b k₃ =>
      have hb := (List.cons_prefix_cons.mp h1.2).1
      exact (braceFree_cons hk').1 hb.symm
  have hm : '{' ∉ (k' ++ ['}', '}']) := by
    intro hmem
    rcases List.mem_append.mp hmem with hmem' | hmem'
    · exact hk'.1 hmem'
    · simp at hmem'
  show replace ('{' :: ('{' :: ((k' ++ ['}', '}']) ++ R))) (placeholder k) rep = _
  rw [replace_cons_no _ _ _ _ hstep1, replace_cons_no _ _ _ _ hstep2,
      replace_append_left_nolb (k' ++ ['}', '}']) R (placeholder k) rep
        ('{' :: (k ++ ['}', '}'])) rfl hm]
  rfl

/-- A structured template: a concatenation of literal text pieces and
placeholder occurrences.  Templates of this shape (with brace-free text and
identifiers) are exactly those whose braces all belong to placeholders. -/
inductive Seg where
  | text (s : Str)
  | hole (k : Str)
deriving DecidableEq

/-- The literal text a segment contributes to the template. -/
def Seg.render : Seg → Str
  | .text s => s
  | .hole k => placeholder k

/-- Well-formed segment: its text, or its identifier, is brace-free. -/
def Seg.OK : Seg → Prop
  | .text s => braceFree s
  | .hole k => braceFree k

instance braceFreeDec (s : Str) : Decidable (braceFree s) := by
  unfold braceFree
  infer_instance

instance segOKDec (sg : Seg) : Decidable (Seg.OK sg) := by
  cases sg with
  | text s => exact braceFreeDec s
  | hole k => exact braceFreeDec k

/-- The template text denoted by a list of segments. -/
def flattenSegs (segs : List Seg) : Str := (segs.map Seg.render).flatten

/-- Effect of one replacement pass on a segment: the matching holes become
literal text holding the replacement, everything else is untouched. -/
def substSeg (k rep : Str) : Seg → Seg
  | .text s => .text s
  | .hole k' => if k' = k then .text rep else .hole k'

/-- Effect of the whole replacement loop on a segment, pass by pass in
mapping iteration order. -/
def substAll (config : List (Str × JValue)) (sg : Seg) : Seg :=
  config.foldl (fun s kv => substSeg kv.1 (pyStr kv.2) s) sg

/-- The first configuration entry with the given key, if any. -/
def lookupKey (config : List (Str × JValue)) (k : Str) : Option (Str × JValue) :=
  config.find? (fun kv => kv.1 == k)

theorem replace_flattenSegs (k rep : Str) (hk : braceFree k) :
    ∀ segs : List Seg, (∀ sg ∈ segs, Seg.OK sg) →
    replace (flattenSegs segs) (placeholder k) rep
      = flattenSegs (segs.map (substSeg k rep)) := by
  intro segs
  induction segs with
  | nil =>
    intro _
    exact replace_nil _ _
  | cons sg rest ih =>
    intro hok
    have hrest : ∀ s ∈ rest, Seg.OK s := fun s hs => hok s (List.mem_cons_of_mem sg hs)
    cases sg with
    | text s =>
      have hbf : braceFree s := hok (.text s) (List.mem_cons_self _ _)
      have e : flattenSegs (Seg.text s :: rest) = s ++ flattenSegs rest := by
        simp [flattenSegs, Seg.render]
      rw [e, replace_append_left_nolb s (flattenSegs rest) (placeholder k) rep
            ('{' :: (k ++ ['}', '}'])) rfl hbf.1, ih hrest]
      simp [flattenSegs, substSeg, Seg.render]
    | hole k' =>
      have hbf : braceFree k' := hok (.hole k') (List.mem_cons_self _ _)
      have e : flattenSegs (Seg.hole k' :: rest) = placeholder k' ++ flattenSegs rest := by
        simp [flattenSegs, Seg.render]
      by_cases he : k' = k
      · subst he
        rw [e, replace_head _ _ _ (by simp [placeholder]), ih hrest]
        simp [flattenSegs, substSeg, Seg.render]
      · rw [e, replace_ph_ne k k' _ rep hk hbf he, ih hrest]
        simp [flattenSegs, substSeg, Seg.render, he]

theorem render_flattenSegs :
    ∀ (config : List (Str × JValue)) (segs : List Seg),
    (∀ kv ∈ config, braceFree kv.1 ∧ braceFree (pyStr kv.2)) →
    (∀ sg ∈ segs, Seg.OK sg) →
    render config (flattenSegs segs) = flattenSegs (segs.map (substAll config)) := by
  intro config
  induction config with
  | nil =>
    intro segs _ _
    have e : segs.map (substAll []) = segs := by
      have h0 : ∀ sg ∈ segs, substAll [] sg = id sg := fun sg _ => rfl
      rw [List.map_congr_left h0, List.map_id]
    rw [e]
    rfl
  | cons kv rest ih =>
    intro segs hconf hsegs
    have hkv := hconf kv (List.mem_cons_self _ _)
    have hrest : ∀ p ∈ rest, braceFree p.1 ∧ braceFree (pyStr p.2) :=
      fun p hp => hconf p (List.mem_cons_of_mem kv hp)
    have e1 : render (kv :: rest) (flattenSegs segs)
        = render rest (replace (flattenSegs segs) (placeholder kv.1) (pyStr kv.2)) := rfl
    rw [e1, replace_flattenSegs kv.1 (pyStr kv.2) hkv.1 segs hsegs]
    have hok' : ∀ sg ∈ segs.map (substSeg kv.1 (pyStr kv.2)), Seg.OK sg := by
      intro sg hsg
      rcases List.mem_map.mp hsg with ⟨sg₀, hsg₀, rfl⟩
      cases sg₀ with
      | text s => exact hsegs (.text s) hsg₀
      | hole k' =>
        show Seg.OK (if k' = kv.1 then Seg.text (pyStr kv.2) else Seg.hole k')
        by_cases he : k' = kv.1
        · rw [if_pos he]
          exact hkv.2
        · rw [if_neg he]
          exact hsegs (.hole k') hsg₀
    rw [ih _ hrest hok', List.map_map]
    rfl

theorem substAll_text (config : List (Str × JValue)) (s : Str) :
    substAll config (.text s) = .text s := by
  induction config with
  | nil => rfl
  | cons kv rest ih => exact ih

theorem substAll_hole (config : List (Str × JValue)) (k : Str) :
    substAll config (.hole k)
      = match lookupKey config k with
        | some kv => Seg.text (pyStr kv.2)
        | none => Seg.hole k := by
  induction config with
  | nil => rfl
  | cons kv rest ih =>
    by_cases he : k = kv.1
    · have hstep : substAll (kv :: rest) (.hole k)
          = substAll rest (.text (pyStr kv.2)) := by
        show substAll rest (substSeg kv.1 (pyStr kv.2) (.hole k)) = _
        rw [show substSeg kv.1 (pyStr kv.2) (.hole k)
              = if k = kv.1 then Seg.text (pyStr kv.2) else Seg.hole k from rfl, if_pos he]
      have hfind : lookupKey (kv :: rest) k = some kv := by
        unfold lookupKey
        exact List.find?_cons_of_pos _ (by simp [he])
      rw [hstep, substAll_text, hfind]
    · have hstep : substAll (kv :: rest) (.hole k) = substAll rest (.hole k) := by
        show substAll rest (substSeg kv.1 (pyStr kv.2) (.hole k)) = _
        rw [show substSeg kv.1 (pyStr kv.2) (.hole k)
              = if k = kv.1 then Seg.text (pyStr kv.2) else Seg.hole k from rfl, if_neg he]
      have hfind : lookupKey (kv :: rest) k = lookupKey rest k := by
        unfold lookupKey
        rw [List.find?_cons_of_neg _ (by simp only [beq_iff_eq]; exact fun h => he h.symm)]
      rw [hstep, hfind, ih]

theorem mem_eq_of_nodup_keys :
    ∀ (l : List (Str × JValue)), (l.map Prod.fst).Nodup →
    ∀ {kv kv' : Str × JValue}, kv ∈ l → kv' ∈ l → kv.1 = kv'.1 → kv = kv' := by
  intro l
  induction l with
  | nil =>
    intro _ kv kv' h
    simp at h
  | cons x rest ih =>
    intro hnd kv kv' h1 h2 he
    have hnd' := List.nodup_cons.mp hnd
    rcases List.mem_cons.mp h1 with rfl | h1'
    · rcases List.mem_cons.mp h2 with rfl | h2'
      · rfl
      · exfalso
        apply hnd'.1
        rw [he]
        exact List.mem_map_of_mem Prod.fst h2'
    · rcases List.mem_cons.mp h2 with rfl | h2'
      · exfalso
        apply hnd'.1
        rw [← he]
        exact List.mem_map_of_mem Prod.fst h1'
      · exact ih hnd'.2 h1' h2' he

theorem lookupKey_perm (l₁ l₂ : List (Str × JValue)) (hp : l₁.Perm l₂)
    (hnd : (l₁.map Prod.fst).Nodup) (k : Str) :
    lookupKey l₁ k = lookupKey l₂ k := by
  cases e1 : lookupKey l₁ k with
  | none =>
    cases e2 : lookupKey l₂ k with
    | none => rfl
    | some kv =>
      exfalso
      unfold lookupKey at e1 e2
      have hm : kv ∈ l₁ := (hp.mem_iff).mpr (List.mem_of_find?_eq_some e2)
      have hpk := List.find?_some e2
      exact absurd hpk (List.find?_eq_none.mp e1 kv hm)
  | some kv =>
    cases e2 : lookupKey l₂ k with
    | none =>
      exfalso
      unfold lookupKey at e1 e2
      have hm : kv ∈ l₂ := (hp.mem_iff).mp (List.mem_of_find?_eq_some e1)
      have hpk := List.find?_some e1
      exact absurd hpk (List.find?_eq_none.mp e2 kv hm)
    | some kv' =>
      unfold lookupKey at e1 e2
      have h1 : kv ∈ l₁ := List.mem_of_find?_eq_some e1
      have h2 : kv' ∈ l₁ := (hp.mem_iff).mpr (List.mem_of_find?_eq_some e2)
      have hk1 : kv.1 = k := by
        have hb := List.find?_some e1
        simpa using hb
      have hk2 : kv'.1 = k := by
        have hb := List.find?_some e2
        simpa using hb
      rw [mem_eq_of_nodup_keys l₁ hnd h1 h2 (hk1.trans hk2.symm)]

theorem infix_flatten_of_mem : ∀ (L : List Str) (l : Str), l ∈ L → l <:+: L.flatten := by
  intro L
  induction L with
  | nil =>
    intro l h
    simp at h
  | cons x rest ih =>
    intro l h
    rcases List.mem_cons.mp h with rfl | h'
    · exact prefix_isInfix ⟨rest.flatten, (List.flatten_cons ..).symm⟩
    · obtain ⟨u, v, huv⟩ := ih l h'
      exact ⟨x ++ u, v, by rw [List.flatten_cons, ← huv]; simp [List.append_assoc]⟩

theorem not_infix_ph_of_nolb (k s : Str) (hs : '{' ∉ s) :
    ¬ placeholder k <:+: s := by
  intro h
  exact hs (h.subset (by simp [placeholder]))

theorem infix_cons_split {q : Str} {c : Char} {s : Str} (h : q <:+: c :: s) :
    q <+: (c :: s) ∨ q <:+: s := by
  obtain ⟨u, v, huv⟩ := h
  cases u with
  | nil =>
    left
    exact ⟨v, huv⟩
  | cons a u' =>
    right
    injection huv with h1 h2
    exact ⟨u', v, h2⟩

theorem infix_shift_nolb (q₀ : Str) : ∀ (m R : Str), '{' ∉ m →
    ('{' :: q₀) <:+: m ++ R → ('{' :: q₀) <:+: R := by
  intro m
  induction m with
  | nil =>
    intro R _ h
    exact h
  | cons a m' ih =>
    intro R hm h
    have h' : ('{' :: q₀) <:+: a :: (m' ++ R) := h
    rcases infix_cons_split h' with hp | hi
    · exfalso
      have ha := (List.cons_prefix_cons.mp hp).1
      apply hm
      rw [ha]
      exact List.mem_cons_self a m'
    · exact ih R (fun hmm => hm (List.mem_cons_of_mem a hmm)) hi

theorem ph_prefix_ph_append (kq kh R : Str) (hkq : braceFree kq) (hkh : braceFree kh)
    (h : placeholder kq <+: placeholder kh ++ R) : kq = kh := by
  have h1 := List.cons_prefix_cons.mp h
  have h2 := List.cons_prefix_cons.mp h1.2
  apply key_prefix_key_eq kq kh R hkq hkh
  have h3 : kq ++ ['}', '}'] <+: (kh ++ ['}', '}']) ++ R := h2.2
  rwa [List.append_assoc] at h3

theorem infix_ph_append_split (kq kh R : Str) (hkq : braceFree kq) (hkh : braceFree kh)
    (h : placeholder kq <:+: placeholder kh ++ R) :
    kq = kh ∨ placeholder kq <:+: R := by
  by_cases he : kq = kh
  · exact Or.inl he
  · right
    have h0 : placeholder kq <:+: '{' :: ('{' :: ((kh ++ ['}', '}']) ++ R)) := h
    rcases infix_cons_split h0 with hp | h1
    · exact absurd (ph_prefix_ph_append kq kh R hkq hkh hp) he
    · rcases infix_cons_split h1 with hp2 | h2
      · exfalso
        have h3 := (List.cons_prefix_cons.mp hp2).2
        cases kh with
        | nil =>
          have h4 := (List.cons_prefix_cons.mp h3).1
          exact absurd h4 (by decide)
        | cons b kh' =>
          have h4 := (List.cons_prefix_cons.mp h3).1
          exact (braceFree_cons hkh).1 h4.symm
      · have hm : '{' ∉ (kh ++ ['}', '}']) := by
          intro hmem
          rcases List.mem_append.mp hmem with h' | h'
          · exact hkh.1 h'
          · simp at h'
        exact infix_shift_nolb ('{' :: (kq ++ ['}', '}'])) (kh ++ ['}', '}']) R hm h2

theorem replace_keeps_other_ph_aux (n : Nat) : ∀ (s k ident rep : Str), s.length ≤ n →
    braceFree k → braceFree ident → k ≠ ident →
    placeholder ident <:+: s → placeholder ident <:+: replace s (placeholder k) rep := by
  induction n with
  | zero =>
    intro s k ident rep hlen _ _ _ hocc
    have hs : s = [] := List.eq_nil_of_length_eq_zero (Nat.le_zero.mp hlen)
    subst hs
    obtain ⟨u, v, huv⟩ := hocc
    simp [placeholder] at huv
  | succ n ih =>
    intro s k ident rep hlen hk hident hne hocc
    by_cases hqp : placeholder ident <+: s
    · obtain ⟨w, rfl⟩ := hqp
      rw [replace_ph_ne k ident w rep hk hident (fun h => hne h.symm)]
      exact prefix_isInfix (List.prefix_append _ _)
    · by_cases hkp : placeholder k <+: s
      · obtain ⟨t, rfl⟩ := hkp
        rw [replace_head t (placeholder k) rep (by simp [placeholder])]
        have hq : placeholder ident <:+: t := by
          rcases infix_ph_append_split ident k t hident hk hocc with he | h
          · exact absurd he.symm hne
          · exact h
        have hlen' : t.length ≤ n := by
          rw [List.length_append] at hlen
          have hp1 : 1 ≤ (placeholder k).length := by simp [placeholder]
          omega
        obtain ⟨u, v, huv⟩ := ih t k ident rep hlen' hk hident hne hq
        refine ⟨rep ++ u, v, ?_⟩
        show (rep ++ u) ++ placeholder ident ++ v = rep ++ replace t (placeholder k) rep
        rw [← huv]
        simp [List.append_assoc]
      · cases s with
        | nil =>
          obtain ⟨u, v, huv⟩ := hocc
          simp [placeholder] at huv
        | cons c rest =>
          rw [replace_cons_no c rest _ rep hkp]
          have hq : placeholder ident <:+: rest := by
            rcases infix_cons_split hocc with h | h
            · exact absurd h hqp
            · exact h
          have hlen' : rest.length ≤ n := by
            simp only [List.length_cons] at hlen
            omega
          exact infix_cons_of (ih rest k ident rep hlen' hk hident hne hq)

theorem replace_keeps_other_ph (s k ident rep : Str) (hk : braceFree k)
    (hident : braceFree ident) (hne : k ≠ ident) (hocc : placeholder ident <:+: s) :
    placeholder ident <:+: replace s (placeholder k) rep :=
  replace_keeps_other_ph_aux s.length s k ident rep (le_refl _) hk hident hne hocc

theorem hole_of_infix_flattenSegs : ∀ (segs : List Seg) (k : Str), braceFree k →
    (∀ sg ∈ segs, Seg.OK sg) → placeholder k <:+: flattenSegs segs →
    Seg.hole k ∈ segs := by
  intro segs
  induction segs with
  | nil =>
    intro k _ _ hocc
    obtain ⟨u, v, huv⟩ := hocc
    simp [flattenSegs, placeholder] at huv
  | cons sg rest ih =>
    intro k hk hok hocc
    have hrest : ∀ s ∈ rest, Seg.OK s := fun s hs => hok s (List.mem_cons_of_mem sg hs)
    cases sg with
    | text s =>
      have hbf : braceFree s := hok (.text s) (List.mem_cons_self _ _)
      have e : flattenSegs (Seg.text s :: rest) = s ++ flattenSegs rest := by
        simp [flattenSegs, Seg.render]
      rw [e] at hocc
      have h' := infix_shift_nolb ('{' :: (k ++ ['}', '}'])) s (flattenSegs rest) hbf.1 hocc
      exact List.mem_cons_of_mem _ (ih k hk hrest h')
    | hole k' =>
      have hbf : braceFree k' := hok (.hole k') (List.mem_cons_self _ _)
      have e : flattenSegs (Seg.hole k' :: rest) = placeholder k' ++ flattenSegs rest := by
        simp [flattenSegs, Seg.render]
      rw [e] at hocc
      rcases infix_ph_append_split k k' (flattenSegs rest) hk hbf hocc with he | h
      · rw [he]
        exact List.mem_cons_self _ _
      · exact List.mem_cons_of_mem _ (ih k hk hrest h)

theorem substAll_preserves_OK (config : List (Str × JValue))
    (hconf : ∀ kv ∈ config, braceFree kv.1 ∧ braceFree (pyStr kv.2)) (sg : Seg)
    (hsg : Seg.OK sg) : Seg.OK (substAll config sg) := by
  cases sg with
  | text s =>
    rw [substAll_text]
    exact hsg
  | hole k =>
    cases e : lookupKey config k with
    | none =>
      rw [substAll_hole, e]
      exact hsg
    | some kv =>
      rw [substAll_hole, e]
      unfold lookupKey at e
      exact (hconf kv (List.mem_of_find?_eq_some e)).2

theorem replace_whole (pat rep : Str) (hpat : pat ≠ []) : replace pat pat rep = rep := by
  have h := replace_head [] pat rep hpat
  rw [List.append_nil] at h
  rw [h, replace_nil, List.append_nil]

/-- C7: for every configuration mapping and every template that contains no
placeholder substring for any key of the mapping, the rendered output equals
the input template unchanged. -/
theorem render_eq_of_no_placeholder (config : List (Str × JValue)) (t : Str)
    (h : ∀ kv ∈ config, ¬ placeholder kv.1 <:+: t) : render config t = t := by
  induction config with
  | nil => rfl
  | cons kv rest ih =>
    have e : render (kv :: rest) t
        = render rest (replace t (placeholder kv.1) (pyStr kv.2)) := rfl
    rw [e, replace_of_not_infix t _ _ (h kv (List.mem_cons_self _ _))]
    exact ih (fun p hp => h p (List.mem_cons_of_mem kv hp))

/-- Witness for C7: a placeholder-free template is returned unchanged for a
concrete configuration. -/
theorem render_eq_of_no_placeholder_inst :
    (∀ kv ∈ [("port".data, JValue.int 8080)], ¬ placeholder kv.1 <:+: "plain text".data)
    ∧ render [("port".data, JValue.int 8080)] "plain text".data = "plain text".data :=
  ⟨by decide, render_eq_of_no_placeholder _ _ (by decide)⟩

/-- C8: the worked example: config maps hostname to node1 and port to 8080,
the template is host=\x7b\x7bhostname\x7d\x7d port=\x7b\x7bport\x7d\x7d
debug=\x7b\x7bdebug\x7d\x7d, and the rendered output is
host=node1 port=8080 debug=\x7b\x7bdebug\x7d\x7d. -/
theorem render_example_eval :
    render [("hostname".data, JValue.str "node1".data), ("port".data, JValue.int 8080)]
      ("host=".data ++ placeholder "hostname".data ++ " port=".data
        ++ placeholder "port".data ++ " debug=".data ++ placeholder "debug".data)
      = "host=node1 port=8080 debug=".data ++ placeholder "debug".data := by
  decide

/-- C2 (amended): replacement is single-pass per key — text inserted by a
replacement is never rescanned by the pass that inserted it, so a key whose
value is its own placeholder leaves every template unchanged (a recursive
or cascading substitution would instead loop or substitute again).  Later
keys' passes, however, do rescan the whole content, so placeholder text of
keys iterated later can still be substituted. -/
theorem no_recursive_reprocessing (k t : Str) :
    render [(k, JValue.str (placeholder k))] t = t := by
  show replace t (placeholder k) (placeholder k) = t
  exact replace_self t (placeholder k)

/-- C2 counterexample: with config mapping a to the text of b's placeholder
and b to x (in that order), rendering the template consisting of a's
placeholder yields x: the placeholder text exposed by a's replacement was
substituted by b's later pass rather than surviving verbatim. -/
theorem exposed_later_placeholder_substituted :
    render [("a".data, JValue.str (placeholder "b".data)), ("b".data, JValue.str "x".data)]
      (placeholder "a".data) = "x".data
    ∧ ¬ placeholder "b".data <:+:
        render [("a".data, JValue.str (placeholder "b".data)), ("b".data, JValue.str "x".data)]
          (placeholder "a".data) :=
  ⟨by decide, by decide⟩

/-- C10: stringification uses Python str conversion: a boolean true value
renders as True, false as False, and null as None — not as the JSON
spellings — and the parser maps the JSON literal true to the boolean value. -/
theorem pyStr_scalar_spellings :
    (∀ k : Str, render [(k, JValue.bool true)] (placeholder k) = "True".data)
    ∧ (∀ k : Str, render [(k, JValue.bool false)] (placeholder k) = "False".data)
    ∧ (∀ k : Str, render [(k, JValue.null)] (placeholder k) = "None".data)
    ∧ parseJson (['{'] ++ "\"flag\": true".data ++ ['}'])
        = some [("flag".data, JValue.bool true)]
    ∧ "True".data ≠ "true".data ∧ "False".data ≠ "false".data ∧ "None".data ≠ "null".data := by
  refine ⟨?_, ?_, ?_, by decide, by decide, by decide, by decide⟩
  all_goals
    intro k
    exact replace_whole (placeholder k) _ (by simp [placeholder])

/-- C1 (amended): for a template whose braces all belong to placeholders —
a concatenation of brace-free literal text and placeholders of brace-free
identifiers, which may or may not be configuration keys — and a
configuration whose keys and stringified values are brace-free, no
occurrence of any configuration key's placeholder remains in the rendered
output (in particular for a key whose placeholder occurs in the template).
Unmatched placeholders survive, but only with identifiers that are not
configuration keys. -/
theorem placeholders_all_replaced (config : List (Str × JValue)) (segs : List Seg) (k : Str)
    (hconf : ∀ kv ∈ config, braceFree kv.1 ∧ braceFree (pyStr kv.2))
    (hsegs : ∀ sg ∈ segs, Seg.OK sg)
    (hk : k ∈ config.map Prod.fst)
    (_hocc : placeholder k <:+: flattenSegs segs) :
    ¬ placeholder k <:+: render config (flattenSegs segs) := by
  rw [render_flattenSegs config segs hconf hsegs]
  intro hbad
  obtain ⟨kv, hkv, hkv1⟩ := List.mem_map.mp hk
  have hkbf : braceFree k := hkv1 ▸ (hconf kv hkv).1
  have hok' : ∀ sg ∈ segs.map (substAll config), Seg.OK sg := by
    intro sg hsg
    rcases List.mem_map.mp hsg with ⟨sg₀, hsg₀, rfl⟩
    exact substAll_preserves_OK config hconf sg₀ (hsegs sg₀ hsg₀)
  have hmem := hole_of_infix_flattenSegs (segs.map (substAll config)) k hkbf hok' hbad
  rcases List.mem_map.mp hmem with ⟨sg₀, hsg₀, he⟩
  cases sg₀ with
  | text s =>
    rw [substAll_text] at he
    exact absurd he (by simp)
  | hole k₀ =>
    rw [substAll_hole] at he
    cases efind : lookupKey config k₀ with
    | some kv' =>
      rw [efind] at he
      exact absurd he (by simp)
    | none =>
      rw [efind] at he
      have hk0 : k₀ = k := by injection he
      rw [hk0] at efind
      unfold lookupKey at efind
      have hnone := List.find?_eq_none.mp efind kv hkv
      simp [hkv1] at hnone

/-- Witness for C1 (amended) at a concrete configuration and a template
that also contains an unmatched placeholder. -/
theorem placeholders_all_replaced_inst :
    ¬ placeholder "a".data <:+:
        render [("a".data, JValue.str "v".data)]
          (flattenSegs [Seg.text "x=".data, Seg.hole "a".data,
            Seg.text " debug=".data, Seg.hole "debug".data]) :=
  placeholders_all_replaced _ _ _ (by decide) (by decide) (by decide) (by decide)

/-- C1 counterexample: with the single-entry config mapping a to the literal
text of a's own placeholder, a's placeholder occurs in the template and the
key a is present in the mapping, yet the rendered output still contains the
literal placeholder (the replacement reinserted it). -/
theorem self_placeholder_survives :
    placeholder "a".data <:+: placeholder "a".data
    ∧ placeholder "a".data <:+:
        render [("a".data, JValue.str (placeholder "a".data))] (placeholder "a".data) :=
  ⟨by decide, by decide⟩

/-- C3 (amended): rendering is invariant under permutations of the
configuration when the keys are distinct, keys and stringified values are
brace-free, and the template's braces all belong to placeholders of
brace-free identifiers (the identifiers need not be configuration keys). -/
theorem render_perm_invariant (config₁ config₂ : List (Str × JValue)) (segs : List Seg)
    (hperm : config₁.Perm config₂)
    (hnd : (config₁.map Prod.fst).Nodup)
    (hconf : ∀ kv ∈ config₁, braceFree kv.1 ∧ braceFree (pyStr kv.2))
    (hsegs : ∀ sg ∈ segs, Seg.OK sg) :
    render config₁ (flattenSegs segs) = render config₂ (flattenSegs segs) := by
  have hconf₂ : ∀ kv ∈ config₂, braceFree kv.1 ∧ braceFree (pyStr kv.2) :=
    fun kv hkv => hconf kv ((hperm.mem_iff).mpr hkv)
  rw [render_flattenSegs config₁ segs hconf hsegs,
      render_flattenSegs config₂ segs hconf₂ hsegs]
  have hseg_eq : ∀ sg ∈ segs, substAll config₁ sg = substAll config₂ sg := by
    intro sg _
    cases sg with
    | text s => rw [substAll_text, substAll_text]
    | hole k =>
      rw [substAll_hole, substAll_hole, lookupKey_perm config₁ config₂ hperm hnd k]
  rw [List.map_congr_left hseg_eq]

/-- Witness for C3 (amended): the two orders of a concrete two-key
configuration render a concrete template identically. -/
theorem render_perm_invariant_inst :
    render [("a".data, JValue.str "1".data), ("b".data, JValue.str "2".data)]
        (flattenSegs [Seg.hole "a".data, Seg.text "-".data, Seg.hole "b".data])
      = render [("b".data, JValue.str "2".data), ("a".data, JValue.str "1".data)]
        (flattenSegs [Seg.hole "a".data, Seg.text "-".data, Seg.hole "b".data]) :=
  render_perm_invariant _ _ _ (by decide) (by decide) (by decide) (by decide)

/-- C3 counterexample: two permutations of the same configuration render the
same template differently, although no key's value text contains another
key's placeholder (the value of b merely ends placeholder-like text already
present in the template). -/
theorem render_order_dependent :
    List.Perm [("a".data, JValue.str "X".data), ("b".data, JValue.str ['}', '}'])]
      [("b".data, JValue.str ['}', '}']), ("a".data, JValue.str "X".data)]
    ∧ ¬ placeholder "b".data <:+: "X".data
    ∧ ¬ placeholder "a".data <:+: ['}', '}']
    ∧ render [("a".data, JValue.str "X".data), ("b".data, JValue.str ['}', '}'])]
        (['{', '{', 'a'] ++ placeholder "b".data)
      ≠ render [("b".data, JValue.str ['}', '}']), ("a".data, JValue.str "X".data)]
        (['{', '{', 'a'] ++ placeholder "b".data) :=
  ⟨by decide, by decide, by decide, by decide⟩

/-- C6 (amended): for every template and every configuration whose keys are
brace-free, any placeholder occurring in the template whose identifier is
brace-free and not a configuration key appears unchanged in the rendered
output — the values are unconstrained, since an occurrence of a brace-free
key's placeholder can never overlap an occurrence of the brace-free
identifier's placeholder. -/
theorem unknown_placeholder_survives (config : List (Str × JValue)) (t ident : Str)
    (hkeys : ∀ kv ∈ config, braceFree kv.1)
    (hident : braceFree ident)
    (hnk : ∀ kv ∈ config, kv.1 ≠ ident)
    (hocc : placeholder ident <:+: t) :
    placeholder ident <:+: render config t := by
  induction config generalizing t with
  | nil => exact hocc
  | cons kv rest ih =>
    have e : render (kv :: rest) t
        = render rest (replace t (placeholder kv.1) (pyStr kv.2)) := rfl
    rw [e]
    exact ih _
      (fun p hp => hkeys p (List.mem_cons_of_mem kv hp))
      (fun p hp => hnk p (List.mem_cons_of_mem kv hp))
      (replace_keeps_other_ph t kv.1 ident (pyStr kv.2)
        (hkeys kv (List.mem_cons_self _ _)) hident
        (hnk kv (List.mem_cons_self _ _)) hocc)

/-- Witness for C6 (amended): the debug placeholder survives in a template
that also contains stray braces outside any placeholder, with a value that
itself consists of braces. -/
theorem unknown_placeholder_survives_inst :
    placeholder "debug".data <:+:
      render [("k".data, JValue.str ['}', '}'])]
        ("a".data ++ ['{'] ++ placeholder "debug".data ++ ['}'] ++ placeholder "k".data) :=
  unknown_placeholder_survives _ _ _ (by decide) (by decide) (by decide) (by decide)

/-- C6 counterexample: the placeholder of the identifier debug occurs in the
template, debug is not a configuration key, yet the placeholder does not
survive: the single key (whose name contains braces) has a placeholder equal
to the whole template, so the replacement consumes the debug placeholder. -/
theorem braced_key_destroys_unknown_placeholder :
    placeholder "debug".data <:+: placeholder "debug".data ++ ['x', '}', '}']
    ∧ (∀ kv ∈ [(("debug".data ++ ['}', '}', 'x'] : Str), JValue.str "V".data)],
        kv.1 ≠ "debug".data)
    ∧ ¬ placeholder "debug".data <:+:
        render [("debug".data ++ ['}', '}', 'x'], JValue.str "V".data)]
          (placeholder "debug".data ++ ['x', '}', '}']) :=
  ⟨by decide, by decide, by decide⟩

/-- The empty file system: no input files exist. -/
def fsEmpty : FS := ⟨fun _ => none⟩

/-- The configuration file contents used by the success witnesses. -/
def goodConfigText : Str := ['{'] ++ "\"hostname\": \"node1\", \"port\": 8080".data ++ ['}']

/-- The template file contents used by the success witnesses. -/
def goodTemplateText : Str := "host=".data ++ placeholder "hostname".data

/-- A file system holding a well-formed configuration file and a template
file (and nothing else). -/
def fsGood : FS :=
  ⟨fun p => if p = CONFIG_PATH then some goodConfigText
            else if p = TEMPLATE_PATH then some goodTemplateText
            else none⟩

/-- A file system whose configuration file exists but does not parse as
JSON, and whose template file exists. -/
def fsBadJson : FS :=
  ⟨fun p => if p = CONFIG_PATH then some "oops".data
            else if p = TEMPLATE_PATH then some "t".data
            else none⟩

/-- C4: when the configuration file is missing, or the configuration file
exists but the template file is missing, the run ends fatally with a message
naming the missing file's path, and the file system is unchanged: the output
write is unreachable. -/
theorem missing_input_fatal_no_write (fs : FS)
    (h : fs.files CONFIG_PATH = none
      ∨ (fs.files CONFIG_PATH ≠ none ∧ fs.files TEMPLATE_PATH = none)) :
    (∃ msg, (runMain fs).1 = Result.fatal msg
      ∧ ((fs.files CONFIG_PATH = none ∧ CONFIG_PATH <:+: msg)
        ∨ (fs.files CONFIG_PATH ≠ none ∧ TEMPLATE_PATH <:+: msg)))
    ∧ ∀ p, ((runMain fs).2).files p = fs.files p := by
  rcases h with hc | ⟨hc, ht⟩
  · refine ⟨⟨configMissingMsg, ?_,
      Or.inl ⟨hc, ⟨"Config file ".data, " not found".data, rfl⟩⟩⟩, fun p => ?_⟩
    · simp [runMain, hc]
    · simp [runMain, hc]
  · obtain ⟨cfgText, hcfg⟩ := Option.ne_none_iff_exists'.mp hc
    refine ⟨⟨templateMissingMsg, ?_,
      Or.inr ⟨hc, ⟨"Template file ".data, " not found".data, rfl⟩⟩⟩, fun p => ?_⟩
    · simp [runMain, hcfg, ht]
    · simp [runMain, hcfg, ht]

/-- Witness for C4 on the empty file system. -/
theorem missing_input_fatal_no_write_inst :
    (∃ msg, (runMain fsEmpty).1 = Result.fatal msg
      ∧ ((fsEmpty.files CONFIG_PATH = none ∧ CONFIG_PATH <:+: msg)
        ∨ (fsEmpty.files CONFIG_PATH ≠ none ∧ TEMPLATE_PATH <:+: msg)))
    ∧ ∀ p, ((runMain fsEmpty).2).files p = fsEmpty.files p :=
  missing_input_fatal_no_write fsEmpty (Or.inl rfl)

/-- C5 (amended): the exit status is zero exactly when the configuration
file exists and parses and the template file exists; a configuration file
whose contents do not parse also ends the process with a non-zero status,
so a zero status is not equivalent to the mere existence of both input
files.  On the zero-status path the run prints the confirmation line naming
the output path. -/
theorem exit_code_zero_iff (fs : FS) :
    (exitCode (runMain fs).1 = 0
      ↔ (∃ c, fs.files CONFIG_PATH = some c ∧ (parseJson c).isSome)
        ∧ (fs.files TEMPLATE_PATH).isSome)
    ∧ (exitCode (runMain fs).1 = 0 → (runMain fs).1 = Result.ok generatedMsg) := by
  cases hc : fs.files CONFIG_PATH with
  | none => simp [runMain, hc, exitCode]
  | some cfgText =>
    cases ht : fs.files TEMPLATE_PATH with
    | none => simp [runMain, hc, ht, exitCode]
    | some tmplText =>
      cases hp : parseJson cfgText with
      | none => simp [runMain, hc, ht, hp, exitCode]
      | some config => simp [runMain, hc, ht, hp, exitCode]

/-- Witness for C5 (amended): on a file system with a well-formed
configuration and a template, the run returns normally and prints the
confirmation line. -/
theorem exit_code_zero_iff_inst : (runMain fsGood).1 = Result.ok generatedMsg :=
  (exit_code_zero_iff fsGood).2 (by decide)

/-- C5 counterexample: both input files exist, yet the exit status is
non-zero, because the configuration file's contents do not parse as JSON. -/
theorem bad_json_nonzero_exit :
    (fsBadJson.files CONFIG_PATH).isSome
    ∧ (fsBadJson.files TEMPLATE_PATH).isSome
    ∧ exitCode (runMain fsBadJson).1 ≠ 0 :=
  ⟨by decide, by decide, by decide⟩

/-- C9: on a successful run the only file-system modification is the write
of the rendered text to the fixed output path (overwriting whatever was
there, unconditionally); the configuration and template files, and every
other path, are unchanged. -/
theorem success_writes_only_output (fs : FS) (cfgText tmplText : Str)
    (config : List (Str × JValue))
    (hc : fs.files CONFIG_PATH = some cfgText)
    (ht : fs.files TEMPLATE_PATH = some tmplText)
    (hp : parseJson cfgText = some config) :
    (runMain fs).1 = Result.ok generatedMsg
    ∧ ((runMain fs).2).files OUTPUT_PATH = some (render config tmplText)
    ∧ ((runMain fs).2).files CONFIG_PATH = fs.files CONFIG_PATH
    ∧ ((runMain fs).2).files TEMPLATE_PATH = fs.files TEMPLATE_PATH
    ∧ ∀ p, p ≠ OUTPUT_PATH → ((runMain fs).2).files p = fs.files p := by
  have e : runMain fs = (Result.ok generatedMsg,
      ⟨fun p => if p = OUTPUT_PATH then some (render config tmplText) else fs.files p⟩) := by
    simp [runMain, hc, ht, hp]
  refine ⟨by rw [e], ?_, ?_, ?_, fun p hpne => ?_⟩
  · rw [e]
    simp
  · rw [e]
    show (if CONFIG_PATH = OUTPUT_PATH then some (render config tmplText)
          else fs.files CONFIG_PATH) = fs.files CONFIG_PATH
    rw [if_neg (by decide)]
  · rw [e]
    show (if TEMPLATE_PATH = OUTPUT_PATH then some (render config tmplText)
          else fs.files TEMPLATE_PATH) = fs.files TEMPLATE_PATH
    rw [if_neg (by decide)]
  · rw [e]
    show (if p = OUTPUT_PATH then some (render config tmplText) else fs.files p) = fs.files p
    rw [if_neg hpne]

/-- Witness for C9 on a concrete file system with a successful run. -/
theorem success_writes_only_output_inst :
    ((runMain fsGood).2).files OUTPUT_PATH
      = some (render [("hostname".data, JValue.str "node1".data), ("port".data, JValue.int 8080)]
          goodTemplateText) :=
  (success_writes_only_output fsGood goodConfigText goodTemplateText
    [("hostname".data, JValue.str "node1".data), ("port".data, JValue.int 8080)]
    (by decide) (by decide) (by decide)).2.1

end Preseed
